import Mathlib

/-!
Verification of the docling-rag retrieval subsystem against its specification.

Shallow embedding of:
- src/core/llm_client.py   (OllamaClient.generate_with_confidence response parsing)
- src/medical/extractors.py (PICOTTExtractor.extract / _calculate_confidence)
- src/core/pdf_processor.py (PDFProcessor.process temp-file lifecycle)
- src/core/vector_store.py  (VectorStore: build_index, search,
  get_similarity_scores, save_index, load_index)

Numeric values are exact rationals.  Embedding coordinates and distances
are modelled with exact rational arithmetic; the confidence accumulation
of `_calculate_confidence`, whose claims depend on the exact float
values, is modelled as IEEE binary64 arithmetic (exact dyadic rationals
with round-to-nearest-even addition).
External libraries (FAISS, SentenceTransformer, the `re` regex engine,
the filesystem) are modelled by their documented input/output behaviour.
-/

namespace DoclingRag

/-! ## Response parsing (src/core/llm_client.py, lines 56-74)

`generate_with_confidence` does, on the raw response string:
```
answer = response
confidence = 0.8
if "CONFIDENCE:" in response:
    parts = response.split("CONFIDENCE:")
    answer = parts[0].replace("ANSWER:", "").strip()
    try: confidence = float(parts[1].strip())
    except: confidence = 0.8
```
`pySplitOn` has the semantics of Python `str.split(sep)` for a nonempty
separator (non-overlapping, left to right); `pyReplace` has the semantics
of Python `str.replace` (all non-overlapping occurrences); `pyStrip`
models Python `str.strip()` (whitespace at both ends).
-/

/-- Splitting a character list on a nonempty separator, Python
`str.split(sep)` style: non-overlapping occurrences, scanned left to
right; a leading/trailing/adjacent separator yields an empty part.  The
fuel argument (any value above the list length) makes the recursion
structural. -/
def charsSplit (sep : List Char) : ℕ → List Char → List (List Char)
  | _, [] => [[]]
  | 0, l => [l]
  | fuel + 1, c :: rest =>
      if sep.isPrefixOf (c :: rest) then
        [] :: charsSplit sep fuel (List.drop (sep.length - 1) rest)
      else
        match charsSplit sep fuel rest with
        | [] => [[c]]
        | t :: ts => (c :: t) :: ts

/-- Python `s.split(sep)` for a nonempty separator. -/
def pySplitOn (s sep : String) : List String :=
  if sep.data.isEmpty then [s]
  else (charsSplit sep.data (s.data.length + 1) s.data).map String.mk

/-- Python `s.replace(old, new)`: replace every non-overlapping occurrence
(equivalently, split on `old` and re-join with `new`). -/
def pyReplace (s old new : String) : String :=
  if old.data.isEmpty then s
  else String.mk (((charsSplit old.data (s.data.length + 1) s.data).map
    String.mk).intersperse new |>.foldl (fun acc t => acc ++ t.data) [])

/-- Python `s.strip()`: whitespace removed from both ends. -/
def pyStrip (s : String) : String :=
  String.mk (((s.data.dropWhile Char.isWhitespace).reverse.dropWhile
    Char.isWhitespace).reverse)

/-- Python `s.startswith(pre)`. -/
def pyStartsWith (s pre : String) : Bool :=
  pre.data.isPrefixOf s.data

/-- Python `s[n:]` (by code point). -/
def pyDropChars (s : String) (n : ℕ) : String :=
  String.mk (s.data.drop n)

/-- Python `s[:n]` (by code point). -/
def pyTakeChars (s : String) (n : ℕ) : String :=
  String.mk (s.data.take n)

/-- Python `len(s)` (code points). -/
def pyLen (s : String) : ℕ :=
  s.data.length

/-- Value of a digit string read in base 10. -/
def digitsVal (l : List Char) : ℕ :=
  l.foldl (fun acc c => acc * 10 + (c.toNat - 48)) 0

/-- Model of Python `float(s)` on an unsigned decimal literal:
`"5"`, `"5."`, `".5"`, `"5.25"` parse; everything else fails.
(The exponent / inf / nan / underscore forms Python also accepts are not
modelled; no claim exercises them.) -/
def parseUnsigned (s : String) : Option ℚ :=
  match pySplitOn s "." with
  | [a] =>
      if a ≠ "" ∧ a.data.all Char.isDigit then some (digitsVal a.data) else none
  | [a, b] =>
      if (a ≠ "" ∨ b ≠ "") ∧ a.data.all Char.isDigit ∧ b.data.all Char.isDigit then
        some ((digitsVal a.data : ℚ) + (digitsVal b.data : ℚ) / (10 : ℚ) ^ pyLen b)
      else none
  | _ => none

/-- Model of Python `float(s)`: optional sign, then an unsigned literal. -/
def parseFloat (s : String) : Option ℚ :=
  if pyStartsWith s "-" then (parseUnsigned (pyDropChars s 1)).map (fun q => -q)
  else if pyStartsWith s "+" then parseUnsigned (pyDropChars s 1)
  else parseUnsigned s

/-- The answer/confidence parsing of `generate_with_confidence`
(src/core/llm_client.py lines 58-68).  `"CONFIDENCE:" in response` holds
iff `splitOn` yields at least two parts; `parts[0]` and `parts[1]` are the
first two parts. -/
def parseResponse (response : String) : String × ℚ :=
  match pySplitOn response "CONFIDENCE:" with
  | p0 :: p1 :: _ =>
      (pyStrip (pyReplace p0 "ANSWER:" ""),
        match parseFloat (pyStrip p1) with
        | some q => q
        | none => 8/10)
  | _ => (response, 8/10)

/-- The confidence segment the code feeds to `float`: the text between the
first delimiter occurrence and the next one (or the end of the response). -/
def confSegment (response : String) : Option String :=
  match pySplitOn response "CONFIDENCE:" with
  | _ :: p1 :: _ => some (pyStrip p1)
  | _ => none

/-- The parsing behaviour claim C6 describes, word for word: the answer is
the text preceding the delimiter with a single leading `"ANSWER:"` label
stripped if present (then whitespace-trimmed), the confidence is the
trailing text parsed as a float with default `0.8`. -/
def parseResponseClaimC6 (response : String) : String × ℚ :=
  match pySplitOn response "CONFIDENCE:" with
  | p0 :: p1 :: _ =>
      (pyStrip (if pyStartsWith p0 "ANSWER:" then pyDropChars p0 7 else p0),
        match parseFloat (pyStrip p1) with
        | some q => q
        | none => 8/10)
  | _ => (response, 8/10)

/-- The amended description of the parser: all occurrences of `"ANSWER:"`
are removed from the text before the first delimiter, and the parsed
segment is the text between the first delimiter and the next occurrence. -/
def parseResponseAmended (response : String) : String × ℚ :=
  let parts := pySplitOn response "CONFIDENCE:"
  if parts.length < 2 then (response, 8/10)
  else
    (pyStrip (pyReplace (parts.headD response) "ANSWER:" ""),
      (parseFloat (pyStrip (parts.getD 1 ""))).getD (8/10))

/-! ## PICOTT extraction (src/medical/extractors.py, lines 18-103)

The regex engine (`re.findall`, plus the tuple-joining and `.strip()` the
code applies to the first match) is abstracted as a `matcher` function
from (pattern, text) to the optional extracted string; all theorems below
are proved for every such matcher, hence in particular for the behaviour
of Python's `re` on the concrete patterns. -/

/-- Extraction result for one PICOTT field. -/
structure FieldResult where
  text : String
  confidence : ℚ
deriving DecidableEq

/-- The component list from `PICOTTExtractor.__init__`. -/
def components : List String :=
  ["population", "intervention", "comparator", "outcome", "time", "type_of_study"]

/-- The regex pattern lists from `PICOTTExtractor.extract` (kept verbatim as
data; their interpretation lives in the abstracted matcher). -/
def patterns (component : String) : List String :=
  if component = "population" then
    ["(?i)(patients?|participants?|subjects?|population).*?(?:with|diagnosed|having)\\s+([^.]+)",
     "(?i)included\\s+(\\d+)\\s+(patients?|participants?|subjects?)",
     "(?i)eligibility.*?criteria.*?([^.]+)"]
  else if component = "intervention" then
    ["(?i)(intervention|treatment|therapy).*?(?:was|consisted|included)\\s+([^.]+)",
     "(?i)received\\s+([^.]+)",
     "(?i)experimental.*?group.*?([^.]+)"]
  else if component = "comparator" then
    ["(?i)(control|comparator|comparison).*?(?:group|arm).*?([^.]+)",
     "(?i)compared.*?(?:to|with)\\s+([^.]+)",
     "(?i)placebo.*?([^.]+)"]
  else if component = "outcome" then
    ["(?i)primary.*?outcome.*?(?:was|included)\\s+([^.]+)",
     "(?i)secondary.*?outcome.*?([^.]+)",
     "(?i)endpoint.*?([^.]+)"]
  else if component = "time" then
    ["(?i)follow.?up.*?(\\d+\\s*(?:days?|weeks?|months?|years?))",
     "(?i)duration.*?(\\d+\\s*(?:days?|weeks?|months?|years?))",
     "(?i)(?:from|between).*?(\\d\x7b4\x7d).*?(?:to|and).*?(\\d\x7b4\x7d)"]
  else if component = "type_of_study" then
    ["(?i)(randomized|RCT|cohort|case.?control|cross.?sectional|retrospective|prospective)",
     "(?i)study.*?design.*?([^.]+)",
     "(?i)this.*?(randomized|observational|experimental).*?study"]
  else []

/-- `sub in s` for Python strings: substring containment (nonempty `sub`). -/
def containsSub (s sub : String) : Bool :=
  (pySplitOn s sub).length ≥ 2

/-- Python `s.lower()` (ASCII case folding suffices for the keywords used). -/
def pyLower (s : String) : String :=
  String.mk (s.data.map Char.toLower)

/-- `any(word in text.lower() for word in words)`. -/
def anyWordIn (text : String) (words : List String) : Bool :=
  words.any (fun w => containsSub (pyLower text) w)

/-! Python float arithmetic in `_calculate_confidence` is IEEE binary64.
A positive binary64 value is modelled as a dyadic rational `m / 2^e`
(`PyFloat`); `flAdd` is exact addition followed by rounding of the
mantissa to 53 significant bits with ties to even — the binary64
semantics for positive normal operands without overflow or subnormals,
which covers every value this function can produce.  The literal
constants `0.1`, `0.2`, `0.3`, `0.95` are given by their exact binary64
values (e.g. the double `0.1` is `3602879701896397 / 2^55`). -/

/-- A positive IEEE binary64 value, as mantissa / 2 ^ exponent.  The
representation need not be normalised; `flAdd` and `flMin` depend only
on the represented value. -/
structure PyFloat where
  m : ℕ
  e : ℕ
deriving DecidableEq

/-- The rational value of a `PyFloat`. -/
def PyFloat.toQ (f : PyFloat) : ℚ := (f.m : ℚ) / 2 ^ f.e

/-- Bit length of a natural number, fuel-based to keep the recursion
structural (fuel 64 covers every mantissa that arises here). -/
def bitLen : ℕ → ℕ → ℕ
  | 0, _ => 0
  | fuel + 1, n => if n = 0 then 0 else bitLen fuel (n / 2) + 1

/-- Round `m / 2^s` to the nearest integer, ties to even. -/
def roundHalfEven (m s : ℕ) : ℕ :=
  if s = 0 then m
  else
    let q := m / 2 ^ s
    let r := m % 2 ^ s
    let half := 2 ^ (s - 1)
    if half < r then q + 1
    else if r < half then q
    else if q % 2 = 0 then q else q + 1

/-- Normalise an exact dyadic `m / 2^e` to at most 53 mantissa bits
(rounding to nearest, ties to even; a carry out of the rounding is
renormalised). -/
def flNorm (m e : ℕ) : PyFloat :=
  let L := bitLen 64 m
  if L ≤ 53 then ⟨m, e⟩
  else
    let m2 := roundHalfEven m (L - 53)
    if 53 < bitLen 64 m2 then ⟨m2 / 2, e - (L - 53) - 1⟩ else ⟨m2, e - (L - 53)⟩

/-- IEEE binary64 addition of positive values: exact sum, then rounding
to 53 significant bits. -/
def flAdd (a b : PyFloat) : PyFloat :=
  let e := max a.e b.e
  flNorm (a.m * 2 ^ (e - a.e) + b.m * 2 ^ (e - b.e)) e

/-- Comparison of two `PyFloat` values (exact; float comparison of
finite values is exact value comparison). -/
def flLe (a b : PyFloat) : Bool :=
  a.m * 2 ^ b.e ≤ b.m * 2 ^ a.e

/-- Python `min` on two float values. -/
def flMin (a b : PyFloat) : PyFloat :=
  if flLe a b then a else b

/-- The float `0.0`. -/
def fl0 : PyFloat := ⟨0, 0⟩

/-- The float `0.5` (exact). -/
def flHalf : PyFloat := ⟨1, 1⟩

/-- The binary64 value of the literal `0.1`. -/
def fl01 : PyFloat := ⟨3602879701896397, 55⟩

/-- The binary64 value of the literal `0.2`. -/
def fl02 : PyFloat := ⟨3602879701896397, 54⟩

/-- The binary64 value of the literal `0.3`. -/
def fl03 : PyFloat := ⟨5404319552844595, 54⟩

/-- The binary64 value of the literal `0.95`. -/
def fl095 : PyFloat := ⟨4278419646001971, 52⟩

/-- `PICOTTExtractor._calculate_confidence` (lines 82-103) over the
binary64 model: `confidence = 0.5`, the mutually exclusive keyword
bonuses `+= 0.2` / `+= 0.3`, the digit bonus `+= 0.1`, then
`min(confidence, 0.95)`. -/
def calcConfFloat (text component : String) : PyFloat :=
  if text = "Not found" then fl0
  else
    let base := flHalf
    let withKeyword :=
      if component = "population" ∧ anyWordIn text ["patients", "participants", "subjects"] then
        flAdd base fl02
      else if component = "intervention" ∧ anyWordIn text ["treatment", "therapy", "intervention"] then
        flAdd base fl02
      else if component = "type_of_study" ∧ anyWordIn text ["randomized", "rct", "cohort"] then
        flAdd base fl03
      else base
    let withDigit :=
      if text.data.any Char.isDigit then flAdd withKeyword fl01 else withKeyword
    flMin withDigit fl095

/-- The confidence `_calculate_confidence` returns, as a rational: the
exact value of the binary64 float the Python code computes. -/
def calculate_confidence (text component : String) : ℚ :=
  (calcConfFloat text component).toQ

/-- The exact value of the double written `0.6` (= `fl(0.5 + 0.1)`). -/
def dbl06 : ℚ := 5404319552844595 / 2 ^ 53

/-- The exact value of the double written `0.7` (= `fl(0.5 + 0.2)`). -/
def dbl07 : ℚ := 3152519739159347 / 2 ^ 52

/-- The exact value of `fl(fl(0.5 + 0.2) + 0.1)`, printed by Python as
`0.7999999999999999`; one ulp below the double `0.8`. -/
def dbl08lo : ℚ := 7205759403792793 / 2 ^ 53

/-- The exact value of the double written `0.8` (= `fl(0.5 + 0.3)`). -/
def dbl08 : ℚ := 3602879701896397 / 2 ^ 52

/-- The exact value of the double written `0.9`
(= `fl(fl(0.5 + 0.3) + 0.1)`). -/
def dbl09 : ℚ := 8106479329266893 / 2 ^ 53

/-- The exact value of the double written `0.95` (the cap). -/
def dbl095 : ℚ := 4278419646001971 / 2 ^ 52

/-- One iteration of the per-component loop of `PICOTTExtractor.extract`
(lines 57-78): the first pattern with a match supplies the extracted text,
confidence is computed on the untruncated text, the recorded text is
truncated to 200 characters. -/
def extractField (matcher : String → String → Option String)
    (text component : String) : FieldResult :=
  match (patterns component).findSome? (fun p => matcher p text) with
  | none => { text := "Not found", confidence := 0 }
  | some m =>
      { text := if pyLen m > 200 then pyTakeChars m 200 else m,
        confidence := calculate_confidence m component }

/-- `PICOTTExtractor.extract`: one `FieldResult` per component. -/
def extract (matcher : String → String → Option String)
    (text : String) : List (String × FieldResult) :=
  components.map (fun c => (c, extractField matcher text c))

/-! ## PDF processing temp-file lifecycle (src/core/pdf_processor.py, lines 20-58)

`process` is a straight-line method: cache probe, temp-file write,
`converter.convert`, chunking / markdown export, `pickle.dump` into the
cache, then `os.remove(temp_path)`.  There is no try/finally, so an
exception in any external step propagates with the temp file still on
disk.  Each external step is modelled by a Bool saying whether it
completed without raising. -/

/-- Model of `PDFProcessor.process`: given which steps succeed, returns
(does the temp file exist after the call returns or raises,
 did the call raise). -/
def processTempAfter (cacheHit convertOk chunkOk serializeOk : Bool) : Bool × Bool :=
  if cacheHit then (false, false)
  else if !convertOk then (true, true)
  else if !chunkOk then (true, true)
  else if !serializeOk then (true, true)
  else (false, false)

/-! ## Vector store (src/core/vector_store.py)

Embeddings are finite rational vectors.  The SentenceTransformer encoder is
an abstract function from text to an optional vector: `none` models the
exceptions `encoder.encode` can raise (which the code catches).  FAISS's
`IndexFlatL2` is modelled by the list of added vectors; its `search`
returns, per its documentation, the `min(k, ntotal)` nearest vectors as
(squared L2 distance, label) pairs sorted by ascending distance, padded to
`k` entries with distance `FLT_MAX` and label `-1` when `ntotal < k`. -/

/-- An embedding vector. -/
def Vec : Type := List ℚ
deriving DecidableEq

/-- A text chunk: the only attribute the store reads is `.text`
(cf. the `MockChunk` objects of src/test_vector_store.py, whose equality
is field equality). -/
structure Chunk where
  text : String
deriving DecidableEq

/-- The encoder: SentenceTransformer `encode` on one text, `none` = raise. -/
def Encoder : Type := String → Option Vec

/-- Squared L2 distance, the metric of `faiss.IndexFlatL2`. -/
def sqDist (u v : Vec) : ℚ :=
  ((List.zip u v).map (fun p => (p.1 - p.2) ^ 2)).sum

/-- FAISS pads missing result slots with this distance (FLT_MAX). -/
def fltMax : ℚ := 34028235 * 10 ^ 31

/-- Ordering of FAISS results: ascending distance, ties by ascending label. -/
def distLt (a b : ℚ × ℤ) : Prop :=
  a.1 < b.1 ∨ (a.1 = b.1 ∧ a.2 ≤ b.2)

instance : DecidableRel distLt := fun a b =>
  inferInstanceAs (Decidable (a.1 < b.1 ∨ (a.1 = b.1 ∧ a.2 ≤ b.2)))

instance : IsTotal (ℚ × ℤ) distLt :=
  ⟨fun a b => by
    unfold distLt
    rcases lt_trichotomy a.1 b.1 with h | h | h
    · exact Or.inl (Or.inl h)
    · rcases le_total a.2 b.2 with h2 | h2
      · exact Or.inl (Or.inr ⟨h, h2⟩)
      · exact Or.inr (Or.inr ⟨h.symm, h2⟩)
    · exact Or.inr (Or.inl h)⟩

instance : IsTrans (ℚ × ℤ) distLt :=
  ⟨fun a b c hab hbc => by
    unfold distLt at *
    rcases hab with h1 | ⟨e1, l1⟩
    · rcases hbc with h2 | ⟨e2, _⟩
      · exact Or.inl (h1.trans h2)
      · exact Or.inl (e2 ▸ h1)
    · rcases hbc with h2 | ⟨e2, l2⟩
      · exact Or.inl (e1 ▸ h2)
      · exact Or.inr ⟨e1.trans e2, l1.trans l2⟩⟩

/-- The (squared distance, label) pair of every indexed vector against a
query vector. -/
def distPairs (q : Vec) (xs : List Vec) : List (ℚ × ℤ) :=
  xs.enum.map (fun iv => (sqDist q iv.2, (iv.1 : ℤ)))

/-- `faiss.IndexFlatL2.search` on the index holding `xs`, for one query
vector, returning `k` (distance, label) result pairs. -/
def faissSearch (xs : List Vec) (q : Vec) (k : ℕ) : List (ℚ × ℤ) :=
  ((distPairs q xs).insertionSort distLt).take k ++
    List.replicate (k - xs.length) (fltMax, -1)

/-- Python list subscripting with an `int` index: negative indices count
from the end, out-of-range raises (modelled as `none`). -/
def pyGetElem (l : List α) (i : ℤ) : Option α :=
  let j := if i < 0 then i + l.length else i
  if j < 0 then none else l.get? j.toNat

/-- `[f x for x in l]` where evaluating `f` can raise: the comprehension
raises (`none`) as soon as one element does. -/
def omap (f : α → Option β) : List α → Option (List β)
  | [] => some []
  | a :: l =>
      match f a with
      | none => none
      | some b => (omap f l).map (fun r => b :: r)

/-- The mutable state of a `VectorStore`: the FAISS index (`None` or the
vectors it holds, in insertion order) and the chunk list. -/
structure VStore where
  index : Option (List Vec)
  chunks : List Chunk
deriving DecidableEq

/-- `VectorStore.build_index` (lines 86-141).  Returns the new state and
whether a non-`None` index was returned.  Note the code stores
`self.chunks = chunks` *before* encoding, so an encoding failure leaves
the new chunk list paired with the previous index. -/
def build_index (enc : Encoder) (s : VStore) (cs : List Chunk) : VStore × Bool :=
  if cs.isEmpty then ({ index := none, chunks := [] }, false)
  else
    match omap (fun c => enc c.text) cs with
    | none => ({ s with chunks := cs }, false)
    | some embs => ({ index := some embs, chunks := cs }, true)

/-- The part of `VectorStore.search` after the rebuild check (lines
174-201): the `self.index is None` re-check, query encoding, FAISS
search, and the chunk lookup whose `IndexError` handler returns `[]`. -/
def searchCore (enc : Encoder) (s : VStore) (q : String) (k : ℕ) :
    VStore × List Chunk :=
  match s.index with
  | none => (s, [])
  | some vecs =>
      match enc q with
      | none => (s, [])
      | some qv =>
          match omap (fun p => pyGetElem s.chunks p.2) (faissSearch vecs qv k) with
          | some l => (s, l)
          | none => (s, [])

/-- `VectorStore.search` (lines 143-201). -/
def search (enc : Encoder) (s : VStore) (q : String) (cs : List Chunk)
    (k : ℕ) : VStore × List Chunk :=
  if s.index.isNone ∨ s.chunks ≠ cs then
    let r := build_index enc s cs
    if r.2 then searchCore enc r.1 q k else (r.1, [])
  else searchCore enc s q k

/-- The part of `VectorStore.get_similarity_scores` after the rebuild
check (lines 229-266): FAISS search with `k = len(self.chunks)`, the
`distances.size == 0` bail-out, and the vectorised `1 / (1 + distances[0])`
over the distance row — which FAISS returns sorted by ascending distance,
the chunk labels being discarded. -/
def scoresCore (enc : Encoder) (s : VStore) (q : String) : VStore × List ℚ :=
  match s.index with
  | none => (s, [])
  | some vecs =>
      match enc q with
      | none => (s, [])
      | some qv =>
          let res := faissSearch vecs qv s.chunks.length
          if res.isEmpty then (s, [])
          else (s, res.map (fun p => 1 / (1 + p.1)))

/-- `VectorStore.get_similarity_scores` (lines 203-266). -/
def get_similarity_scores (enc : Encoder) (s : VStore) (q : String)
    (cs : List Chunk) : VStore × List ℚ :=
  if s.index.isNone ∨ s.chunks ≠ cs then
    let r := build_index enc s cs
    if r.2 then scoresCore enc r.1 q else (r.1, [])
  else scoresCore enc s q

/-- What the spec says `similarity_scores` returns: one score per indexed
chunk, in chunk index order. -/
def scoresInIndexOrderSpec (qv : Vec) (vecs : List Vec) : List ℚ :=
  vecs.map (fun v => 1 / (1 + sqDist qv v))

/-- Contents of one file on disk: a serialized FAISS index, a pickled
chunk list, or bytes neither deserializer accepts. -/
inductive FData where
  | idx (v : List Vec)
  | chk (cs : List Chunk)
  | junk
deriving DecidableEq

/-- The filesystem: path to optional file content. -/
def FS : Type := String → Option FData

/-- `faiss.read_index`: succeeds only on a serialized index. -/
def readIndexData : FData → Option (List Vec)
  | .idx v => some v
  | _ => none

/-- `pickle.load` of the chunks file: succeeds only on a pickled list. -/
def readChunksData : FData → Option (List Chunk)
  | .chk cs => some cs
  | _ => none

/-- `VectorStore.save_index` (lines 268-320): refuses when no index is
present, otherwise writes the index at `p1` and the pickled chunks at
`p2`.  (I/O failures of the writes themselves are not modelled.) -/
def save_index (s : VStore) (fs : FS) (p1 p2 : String) : FS × Bool :=
  match s.index with
  | none => (fs, false)
  | some v =>
      let fs1 : FS := fun p => if p = p1 then some (.idx v) else fs p
      let fs2 : FS := fun p => if p = p2 then some (.chk s.chunks) else fs1 p
      (fs2, true)

/-- `VectorStore.load_index` (lines 322-391): existence checks, then
`faiss.read_index` (on failure: `self.index = None`, chunks untouched),
then `pickle.load` (on failure: `self.chunks = []` and `self.index = None`). -/
def load_index (s : VStore) (fs : FS) (p1 p2 : String) : VStore × Bool :=
  match fs p1 with
  | none => (s, false)
  | some d1 =>
      match fs p2 with
      | none => (s, false)
      | some d2 =>
          match readIndexData d1 with
          | none => ({ s with index := none }, false)
          | some v =>
              match readChunksData d2 with
              | none => ({ index := none, chunks := [] }, false)
              | some cs => ({ index := some v, chunks := cs }, true)

/-- The fresh state of a `VectorStore` right after `__init__`. -/
def initStore : VStore := { index := none, chunks := [] }

/-- States (store, filesystem) reachable by any sequence of the five
public operations, starting from a fresh store and an empty filesystem,
with arbitrary arguments, whether each call succeeds or fails. -/
inductive Reach (enc : Encoder) : VStore × FS → Prop where
  | init : Reach enc (initStore, fun _ => none)
  | buildStep (s : VStore) (fs : FS) (cs : List Chunk) :
      Reach enc (s, fs) → Reach enc ((build_index enc s cs).1, fs)
  | searchStep (s : VStore) (fs : FS) (q : String) (cs : List Chunk) (k : ℕ) :
      Reach enc (s, fs) → Reach enc ((search enc s q cs k).1, fs)
  | scoresStep (s : VStore) (fs : FS) (q : String) (cs : List Chunk) :
      Reach enc (s, fs) → Reach enc ((get_similarity_scores enc s q cs).1, fs)
  | saveStep (s : VStore) (fs : FS) (p1 p2 : String) :
      Reach enc (s, fs) → Reach enc (s, (save_index s fs p1 p2).1)
  | loadStep (s : VStore) (fs : FS) (p1 p2 : String) :
      Reach enc (s, fs) → Reach enc ((load_index s fs p1 p2).1, fs)

/-! ## Concrete instances used by witnesses and counterexamples -/

/-- An encoder that always succeeds with the vector `[0]`. -/
def encConst : Encoder := fun _ => some [0]

/-- An encoder that raises on the text `"FAIL"` and succeeds otherwise. -/
def encFailOnFAIL : Encoder := fun t => if t = "FAIL" then none else some [0]

/-- An encoder mapping `"a"` to `[2]` and everything else to `[0]`. -/
def encTwo : Encoder := fun t => if t = "a" then some [2] else some [0]

/-- The empty filesystem. -/
def fsEmpty : FS := fun _ => none

/-- The store after a successful build of three chunks followed by a
build of two chunks whose encoding raises. -/
def c2BadStore : VStore :=
  (build_index encFailOnFAIL
    (build_index encFailOnFAIL initStore [⟨"a"⟩, ⟨"b"⟩, ⟨"c"⟩]).1
    [⟨"FAIL"⟩, ⟨"e"⟩]).1

/-- A filesystem whose index file is corrupt and whose chunks file is
valid. -/
def fsBadIndex : FS := fun p =>
  if p = "idx.bin" then some .junk
  else if p = "chunks.pkl" then some (.chk [⟨"b"⟩]) else none

/-- A filesystem whose index file is valid and whose chunks file is
corrupt. -/
def fsBadChunks : FS := fun p =>
  if p = "idx.bin" then some (.idx [[0]])
  else if p = "chunks.pkl" then some .junk else none

/-- A store holding one indexed chunk with its one vector. -/
def stW : VStore := { index := some [[0]], chunks := [⟨"a"⟩] }

/-- A store with two indexed chunks, the first one far from the query. -/
def stC : VStore := { index := some [[2], [0]], chunks := [⟨"a"⟩, ⟨"b"⟩] }

/-! ## Helper lemmas -/

theorem omap_eq_map {α β : Type} {f : α → Option β} {g : α → β} :
    ∀ {l : List α}, (∀ a ∈ l, f a = some (g a)) → omap f l = some (l.map g) := by
  intro l
  induction l with
  | nil => intro _; rfl
  | cons a t ih =>
      intro h
      have ha := h a (List.mem_cons_self a t)
      have ht := ih (fun x hx => h x (List.mem_cons_of_mem a hx))
      simp [omap, ha, ht]

theorem omap_length {α β : Type} {f : α → Option β} :
    ∀ {l : List α} {r : List β}, omap f l = some r → r.length = l.length := by
  intro l
  induction l with
  | nil => intro r h; simp [omap] at h; simp [h.symm]
  | cons a t ih =>
      intro r h
      simp only [omap] at h
      rcases ha : f a with _ | b
      · rw [ha] at h; simp at h
      · rw [ha] at h
        rcases ht : omap f t with _ | rt
        · rw [ht] at h; simp at h
        · rw [ht] at h
          simp at h
          subst h
          simp [ih ht]

/-- If `build_index` reports success, the new state holds the encoded
vectors of exactly the chunks that were passed. -/
theorem build_index_success {enc : Encoder} {s s' : VStore} {cs : List Chunk}
    (h : build_index enc s cs = (s', true)) :
    ∃ embs, omap (fun c => enc c.text) cs = some embs ∧
      s' = { index := some embs, chunks := cs } := by
  unfold build_index at h
  by_cases hcs : cs.isEmpty
  · rw [if_pos hcs] at h
    simp at h
  · rw [if_neg hcs] at h
    rcases ho : omap (fun c => enc c.text) cs with _ | embs
    · rw [ho] at h; simp at h
    · rw [ho] at h
      refine ⟨embs, ho, ?_⟩
      have := (Prod.mk.injEq _ _ _ _).mp h
      exact this.1.symm

/-! ## C7: temp-file lifecycle of PDFProcessor.process -/

/-- C7 counterexample: when `converter.convert` raises (cache miss,
conversion fails), `PDFProcessor.process` propagates the exception with
the staged temporary file still existing, contradicting the claim that
the temp file is gone on every exit path. -/
theorem c7_counterexample : processTempAfter false false true true = (true, true) := by
  decide

/-- C7 (amended): the temporary file staged by `PDFProcessor.process` is
absent after the call exactly when the cache was hit (no temp file is
created) or all of conversion, chunking and cache serialization complete
without raising; any raising step exits with the temp file left on disk,
since the code has no try/finally around `os.remove`. -/
theorem c7_temp_file_amended :
    ∀ cacheHit convertOk chunkOk serializeOk : Bool,
      (processTempAfter cacheHit convertOk chunkOk serializeOk).1 = false ↔
        (cacheHit = true ∨ (convertOk = true ∧ chunkOk = true ∧ serializeOk = true)) := by
  decide

/-! ## C5: confidence range of generate_with_confidence -/

/-- C5 counterexample: on the model response `"X CONFIDENCE: 5.0"`,
`generate_with_confidence` returns confidence 5, outside `[0, 1]` — the
parsed value is not clamped. -/
theorem c5_counterexample :
    (parseResponse "X CONFIDENCE: 5.0").2 = 5 ∧
    ¬ (parseResponse "X CONFIDENCE: 5.0").2 ≤ 1 := by
  have h : pySplitOn "X CONFIDENCE: 5.0" "CONFIDENCE:" = ["X ", " 5.0"] := by decide
  have h3 : pyStrip " 5.0" = "5.0" := by decide
  have h4 : pySplitOn "5.0" "." = ["5", "0"] := by decide
  have h5 : (parseResponse "X CONFIDENCE: 5.0").2 = 5 := by
    simp only [parseResponse, h, h3, parseFloat, parseUnsigned, h4]
    simp +decide [pyStartsWith, digitsVal, pyLen]
  refine ⟨h5, ?_⟩
  rw [h5]
  norm_num

/-- C5 (amended): the confidence returned by `generate_with_confidence`
is 0.8 (delimiter absent, or the trailing segment does not parse as a
float) or else exactly the parsed float of the segment following the
delimiter, returned without clamping — it lies in `[0,1]` only when the
model emitted such a value. -/
theorem c5_confidence_amended (r : String) :
    (parseResponse r).2 = 8/10 ∨
    ∃ seg, confSegment r = some seg ∧ parseFloat seg = some (parseResponse r).2 := by
  rcases hsp : pySplitOn r "CONFIDENCE:" with _ | ⟨p0, _ | ⟨p1, rest⟩⟩
  · left; simp [parseResponse, hsp]
  · left; simp [parseResponse, hsp]
  · rcases hpf : parseFloat (pyStrip p1) with _ | q
    · left; simp [parseResponse, hsp, hpf]
    · right
      exact ⟨pyStrip p1, by simp [confSegment, hsp], by simp [parseResponse, hsp, hpf]⟩

/-! ## C6: shape of the parsed (answer, confidence) pair -/

/-- C6 counterexample: on `"ANSWER: x ANSWER: y CONFIDENCE: 0.9"` the code
removes every occurrence of `"ANSWER:"` from the text before the
delimiter, producing `"x  y"`, while the claim's leading-label-stripping
reading yields `"x ANSWER: y"`. -/
theorem c6_counterexample :
    (parseResponse "ANSWER: x ANSWER: y CONFIDENCE: 0.9").1 = "x  y" ∧
    (parseResponseClaimC6 "ANSWER: x ANSWER: y CONFIDENCE: 0.9").1 = "x ANSWER: y" ∧
    (parseResponse "ANSWER: x ANSWER: y CONFIDENCE: 0.9").1 ≠
      (parseResponseClaimC6 "ANSWER: x ANSWER: y CONFIDENCE: 0.9").1 := by
  refine ⟨by decide, by decide, by decide⟩

/-- C6 (amended): for every raw response, the parse behaves as follows —
if the delimiter is absent the answer is the whole response and the
confidence 0.8; if present, the answer is the text before the first
delimiter with every occurrence of `"ANSWER:"` removed and whitespace
stripped, and the confidence is the text between the first delimiter and
the next occurrence (or the end), parsed as a float with default 0.8. -/
theorem c6_parse_amended (r : String) : parseResponse r = parseResponseAmended r := by
  rcases hsp : pySplitOn r "CONFIDENCE:" with _ | ⟨p0, _ | ⟨p1, rest⟩⟩
  · simp [parseResponse, parseResponseAmended, hsp]
  · simp [parseResponse, parseResponseAmended, hsp]
  · have hlt : ¬ (rest.length + 1 + 1 < 2) := by omega
    rcases hpf : parseFloat (pyStrip p1) with _ | q <;>
      simp [parseResponse, parseResponseAmended, hsp, hpf, hlt]

/-! ## C8, C10: PICOTT extraction bounds -/

theorem calcConfFloat_sentinel (c : String) : calcConfFloat "Not found" c = fl0 := by
  simp [calcConfFloat]

/-- On a non-sentinel text the float computation lands on one of six
concrete binary64 values (validated against Python: `0.5`, `fl(0.5+0.1)`,
`fl(0.5+0.2)`, `fl(fl(0.5+0.2)+0.1)`, `fl(0.5+0.3)`,
`fl(fl(0.5+0.3)+0.1)`; the `0.95` cap never binds). -/
theorem calcConfFloat_cases (t c : String) (h : t ≠ "Not found") :
    calcConfFloat t c ∈ ([⟨1, 1⟩, ⟨5404319552844595, 53⟩, ⟨6305039478318694, 53⟩,
      ⟨7205759403792793, 53⟩, ⟨7205759403792794, 53⟩,
      ⟨8106479329266893, 53⟩] : List PyFloat) := by
  unfold calcConfFloat
  rw [if_neg h]
  dsimp only
  split_ifs <;> decide

theorem calc_conf_bounds (t c : String) :
    0 ≤ calculate_confidence t c ∧ calculate_confidence t c ≤ 95/100 := by
  unfold calculate_confidence
  by_cases h : t = "Not found"
  · subst h
    rw [calcConfFloat_sentinel]
    norm_num [PyFloat.toQ, fl0]
  · have hm := calcConfFloat_cases t c h
    simp only [List.mem_cons, List.not_mem_nil, or_false] at hm
    rcases hm with hv | hv | hv | hv | hv | hv <;> rw [hv] <;> norm_num [PyFloat.toQ]

theorem calc_conf_mem (t c : String) (h : t ≠ "Not found") :
    calculate_confidence t c ∈ ([1/2, dbl06, dbl07, dbl08lo, dbl08, dbl09] : List ℚ) := by
  unfold calculate_confidence
  have hm := calcConfFloat_cases t c h
  simp only [List.mem_cons, List.not_mem_nil, or_false] at hm
  rcases hm with hv | hv | hv | hv | hv | hv <;> rw [hv] <;>
    norm_num [PyFloat.toQ, dbl06, dbl07, dbl08lo, dbl08, dbl09, List.mem_cons]

theorem calc_conf_ge (t c : String) (h : t ≠ "Not found") :
    1/2 ≤ calculate_confidence t c := by
  unfold calculate_confidence
  have hm := calcConfFloat_cases t c h
  simp only [List.mem_cons, List.not_mem_nil, or_false] at hm
  rcases hm with hv | hv | hv | hv | hv | hv <;> rw [hv] <;> norm_num [PyFloat.toQ]

theorem calc_conf_ne_cap (t c : String) :
    calculate_confidence t c ≠ 95/100 ∧ calculate_confidence t c ≠ dbl095 := by
  unfold calculate_confidence
  by_cases h : t = "Not found"
  · subst h
    rw [calcConfFloat_sentinel]
    norm_num [PyFloat.toQ, fl0, dbl095]
  · have hm := calcConfFloat_cases t c h
    simp only [List.mem_cons, List.not_mem_nil, or_false] at hm
    rcases hm with hv | hv | hv | hv | hv | hv <;> rw [hv] <;>
      norm_num [PyFloat.toQ, dbl095]

theorem calc_conf_sentinel (c : String) : calculate_confidence "Not found" c = 0 := by
  unfold calculate_confidence
  rw [calcConfFloat_sentinel]
  norm_num [PyFloat.toQ, fl0]

theorem extractField_cases (matcher : String → String → Option String)
    (text comp : String) :
    extractField matcher text comp = { text := "Not found", confidence := 0 } ∨
    ∃ m, extractField matcher text comp =
        { text := if pyLen m > 200 then pyTakeChars m 200 else m,
          confidence := calculate_confidence m comp } := by
  unfold extractField
  rcases h : (patterns comp).findSome? (fun p => matcher p text) with _ | m
  · left; rfl
  · right; exact ⟨m, rfl⟩

theorem mem_extract {matcher : String → String → Option String}
    {text comp : String} {fr : FieldResult}
    (h : (comp, fr) ∈ extract matcher text) :
    fr = extractField matcher text comp := by
  unfold extract at h
  rcases List.mem_map.mp h with ⟨c, _, hc⟩
  obtain ⟨h1, h2⟩ := (Prod.mk.injEq _ _ _ _).mp hc
  exact (h1 ▸ h2).symm

/-- C8: for every input text (and every behaviour of the regex matcher),
every field of the PICOTT extraction result has confidence in
`[0, 0.95]` and a recorded text of at most 200 characters. -/
theorem c8_extraction_bounds (matcher : String → String → Option String)
    (text comp : String) (fr : FieldResult)
    (h : (comp, fr) ∈ extract matcher text) :
    0 ≤ fr.confidence ∧ fr.confidence ≤ 95/100 ∧ pyLen fr.text ≤ 200 := by
  have hf := mem_extract h
  rcases extractField_cases matcher text comp with hc | ⟨m, hc⟩ <;> rw [hc] at hf <;> subst hf <;>
    dsimp only
  · refine ⟨by norm_num, by norm_num, by decide⟩
  · obtain ⟨hb1, hb2⟩ := calc_conf_bounds m comp
    refine ⟨hb1, hb2, ?_⟩
    by_cases hl : pyLen m > 200
    · rw [if_pos hl]
      simp [pyLen, pyTakeChars]
    · rw [if_neg hl]
      omega

/-- C8 witness: the bounds instantiated at a concrete matcher, text and
field. -/
theorem c8_witness :
    0 ≤ (FieldResult.mk "Not found" 0).confidence ∧
      (FieldResult.mk "Not found" 0).confidence ≤ 95/100 ∧
      pyLen (FieldResult.mk "Not found" 0).text ≤ 200 :=
  c8_extraction_bounds (fun _ _ => none) "" "population" ⟨"Not found", 0⟩ (by decide)

/-- C10 counterexample: a population-field match containing a keyword
and a digit ("40 patients") gets confidence
`fl(fl(0.5 + 0.2) + 0.1) = 0.7999999999999999`, which is neither `0.8`
as an exact decimal nor the binary64 double written `0.8` — the claimed
finite set `{0, 0.5, 0.6, 0.7, 0.8, 0.9}` misses it under either
reading, because the source accumulates the bonuses in float
arithmetic. -/
theorem c10_counterexample :
    ("population", FieldResult.mk "40 patients" dbl08lo) ∈
        extract (fun _ _ => some "40 patients") "t" ∧
    dbl08lo ∉ ([0, 5/10, 6/10, 7/10, 8/10, 9/10] : List ℚ) ∧
    dbl08lo ≠ dbl08 := by
  refine ⟨?_, ?_, ?_⟩
  · have hc : calculate_confidence "40 patients" "population" = dbl08lo := by
      unfold calculate_confidence
      have hF : calcConfFloat "40 patients" "population" = ⟨7205759403792793, 53⟩ := by
        decide
      rw [hF]
      norm_num [PyFloat.toQ, dbl08lo]
    have hf : extractField (fun _ _ => some "40 patients") "t" "population" =
        FieldResult.mk "40 patients" dbl08lo := by
      unfold extractField
      have hfind : (patterns "population").findSome?
          (fun p => (fun _ _ => some ("40 patients" : String)) p "t") =
            some "40 patients" := by decide
      rw [hfind]
      dsimp only
      rw [if_neg (by decide : ¬ pyLen "40 patients" > 200), hc]
    exact List.mem_map.mpr ⟨"population", by decide, by rw [hf]⟩
  · norm_num [dbl08lo, List.mem_cons]
  · norm_num [dbl08lo, dbl08]

/-- C10 (amended): for every input text (and every regex-matcher
behaviour), each field confidence lies in the finite set of binary64
values `{0, 0.5, fl(0.5+0.1), fl(0.5+0.2), fl(fl(0.5+0.2)+0.1),
fl(0.5+0.3), fl(fl(0.5+0.3)+0.1)}` — printed by Python as
`{0.0, 0.5, 0.6, 0.7, 0.7999999999999999, 0.8, 0.9}` — it is 0 exactly
when the recorded text is the `"Not found"` sentinel, is at least 0.5
otherwise, and never attains the 0.95 cap (neither exact `0.95` nor the
double written `0.95`). -/
theorem c10_confidence_value_set (matcher : String → String → Option String)
    (text comp : String) (fr : FieldResult)
    (h : (comp, fr) ∈ extract matcher text) :
    fr.confidence ∈ ([0, 1/2, dbl06, dbl07, dbl08lo, dbl08, dbl09] : List ℚ) ∧
    (fr.text = "Not found" → fr.confidence = 0) ∧
    (fr.text ≠ "Not found" → 1/2 ≤ fr.confidence) ∧
    fr.confidence ≠ 95/100 ∧ fr.confidence ≠ dbl095 := by
  have hf := mem_extract h
  rcases extractField_cases matcher text comp with hc | ⟨m, hc⟩ <;> rw [hc] at hf <;> subst hf <;>
    dsimp only
  · refine ⟨by norm_num, fun _ => rfl, fun h' => absurd rfl h', by norm_num [dbl095]⟩
  · by_cases hm : m = "Not found"
    · subst hm
      rw [if_neg (by decide)]
      refine ⟨?_, fun _ => calc_conf_sentinel comp, ?_, calc_conf_ne_cap _ comp⟩
      · rw [calc_conf_sentinel comp]; norm_num
      · intro h'; exact absurd rfl h'
    · refine ⟨List.mem_cons_of_mem 0 (calc_conf_mem m comp hm), ?_,
        fun _ => calc_conf_ge m comp hm, calc_conf_ne_cap m comp⟩
      intro ht
      exfalso
      by_cases hl : pyLen m > 200
      · rw [if_pos hl] at ht
        have h9 : pyLen (pyTakeChars m 200) = 200 := by
          simp only [pyLen] at hl
          simp only [pyLen, pyTakeChars, List.length_take]
          omega
        rw [ht] at h9
        exact absurd h9 (by decide)
      · rw [if_neg hl] at ht
        exact hm ht

/-- C10 witness: the amended value-set property instantiated at a
concrete matcher, text and field. -/
theorem c10_witness :
    (FieldResult.mk "Not found" 0).confidence ∈
        ([0, 1/2, dbl06, dbl07, dbl08lo, dbl08, dbl09] : List ℚ) ∧
      ((FieldResult.mk "Not found" 0).text = "Not found" →
        (FieldResult.mk "Not found" 0).confidence = 0) ∧
      ((FieldResult.mk "Not found" 0).text ≠ "Not found" →
        1/2 ≤ (FieldResult.mk "Not found" 0).confidence) ∧
      (FieldResult.mk "Not found" 0).confidence ≠ 95/100 ∧
      (FieldResult.mk "Not found" 0).confidence ≠ dbl095 :=
  c10_confidence_value_set (fun _ _ => none) "" "population" ⟨"Not found", 0⟩ (by decide)

/-! ## C2: index/chunk count invariant -/

/-- C2 counterexample: a reachable state (successful `build_index` of
three chunks, then a `build_index` of two chunks whose encoding step
raises) in which an index with 3 vectors coexists with a chunk list of
length 2 — the code stores the new chunk list before encoding, so the
failed rebuild leaves the stale index behind. -/
theorem c2_counterexample :
    Reach encFailOnFAIL (c2BadStore, fsEmpty) ∧
    c2BadStore.index = some [[0], [0], [0]] ∧
    c2BadStore.chunks.length = 2 := by
  refine ⟨?_, by decide, by decide⟩
  exact Reach.buildStep _ _ _ (Reach.buildStep _ _ _ Reach.init)

/-- C2 (amended): every successful `build_index` establishes the
invariant — the resulting index holds exactly one vector per stored
chunk.  (The invariant can be broken by a failed rebuild, as the
counterexample shows, and by loading index and chunk files from
different saves.) -/
theorem c2_build_invariant (enc : Encoder) (s s' : VStore) (cs : List Chunk)
    (h : build_index enc s cs = (s', true)) :
    ∃ v, s'.index = some v ∧ v.length = s'.chunks.length := by
  obtain ⟨embs, ho, rfl⟩ := build_index_success h
  exact ⟨embs, rfl, omap_length ho⟩

/-- C2 witness: the amended invariant instantiated at a concrete build. -/
theorem c2_witness :
    ∃ v, (VStore.mk (some [[0]]) [Chunk.mk "a"]).index = some v ∧
      v.length = (VStore.mk (some [[0]]) [Chunk.mk "a"]).chunks.length :=
  c2_build_invariant encConst initStore ⟨some [[0]], [⟨"a"⟩]⟩ [⟨"a"⟩] (by decide)

/-! ## C4: state after a failed load_index -/

/-- C4 counterexample: when the index file fails to deserialize, the code
clears only the index and leaves the previous chunk list in place — the
store ends with stale chunks paired with no index, not with both reset
to empty as the claim requires. -/
theorem c4_counterexample :
    load_index ⟨some [[0]], [⟨"a"⟩]⟩ fsBadIndex "idx.bin" "chunks.pkl" =
      ({ index := none, chunks := [⟨"a"⟩] }, false) ∧
    ([Chunk.mk "a"] : List Chunk) ≠ [] :=
  ⟨by decide, by decide⟩

/-- C4 (amended): when both files exist, a `load_index` failing at the
index-deserialization stage resets the index to `None` but keeps the
previous chunk list; failing at the chunks-deserialization stage resets
both the chunk list (to empty) and the index (to `None`). -/
theorem c4_load_failure_amended (s : VStore) (fs : FS) (p1 p2 : String)
    (d1 d2 : FData) (h1 : fs p1 = some d1) (h2 : fs p2 = some d2) :
    (readIndexData d1 = none →
      load_index s fs p1 p2 = ({ index := none, chunks := s.chunks }, false)) ∧
    (∀ v, readIndexData d1 = some v → readChunksData d2 = none →
      load_index s fs p1 p2 = ({ index := none, chunks := [] }, false)) := by
  unfold load_index
  rw [h1, h2]
  dsimp only
  constructor
  · intro hr; rw [hr]
  · intro v hv hc; rw [hv, hc]

/-- C4 witness: the amended behaviour at a concrete store and filesystem,
on the chunks-deserialization-failure branch. -/
theorem c4_witness :
    load_index ⟨some [[0]], [⟨"a"⟩]⟩ fsBadChunks "idx.bin" "chunks.pkl" =
      ({ index := none, chunks := [] }, false) :=
  (c4_load_failure_amended ⟨some [[0]], [⟨"a"⟩]⟩ fsBadChunks "idx.bin" "chunks.pkl"
    (.idx [[0]]) .junk (by decide) (by decide)).2 [[0]] rfl rfl

/-! ## C9: save/load round trip preserves search results -/

/-- C9: after a successful `build_index`, saving to two distinct paths
and loading those paths into a fresh store succeeds and reconstructs the
same store state, so `search` on the loaded store returns exactly the
results of the original for every query and `k`. -/
theorem c9_save_load_roundtrip (enc : Encoder) (s s1 : VStore) (cs : List Chunk)
    (fs : FS) (p1 p2 q : String) (k : ℕ) (hp : p1 ≠ p2)
    (hb : build_index enc s cs = (s1, true)) :
    (save_index s1 fs p1 p2).2 = true ∧
    (load_index initStore (save_index s1 fs p1 p2).1 p1 p2).2 = true ∧
    (search enc (load_index initStore (save_index s1 fs p1 p2).1 p1 p2).1 q cs k).2 =
      (search enc s1 q cs k).2 := by
  obtain ⟨embs, ho, rfl⟩ := build_index_success hb
  have hsave : save_index ⟨some embs, cs⟩ fs p1 p2 =
      ((fun p => if p = p2 then some (.chk cs)
        else if p = p1 then some (.idx embs) else fs p), true) := rfl
  have h1 : (save_index ⟨some embs, cs⟩ fs p1 p2).1 p1 = some (.idx embs) := by
    rw [hsave]
    dsimp only
    rw [if_neg hp, if_pos rfl]
  have h2 : (save_index ⟨some embs, cs⟩ fs p1 p2).1 p2 = some (.chk cs) := by
    rw [hsave]
    dsimp only
    rw [if_pos rfl]
  have hload : load_index initStore (save_index ⟨some embs, cs⟩ fs p1 p2).1 p1 p2 =
      (⟨some embs, cs⟩, true) := by
    unfold load_index
    rw [h1, h2]
    rfl
  exact ⟨by rw [hsave], by rw [hload], by rw [hload]⟩

/-- C9 witness: the round trip instantiated at a concrete encoder, chunk
list, paths, query and `k`. -/
theorem c9_witness :
    (save_index ⟨some [[0]], [⟨"a"⟩]⟩ fsEmpty "idx.bin" "chunks.pkl").2 = true ∧
    (load_index initStore
      (save_index ⟨some [[0]], [⟨"a"⟩]⟩ fsEmpty "idx.bin" "chunks.pkl").1
      "idx.bin" "chunks.pkl").2 = true ∧
    (search encConst
      (load_index initStore
        (save_index ⟨some [[0]], [⟨"a"⟩]⟩ fsEmpty "idx.bin" "chunks.pkl").1
        "idx.bin" "chunks.pkl").1 "q" [⟨"a"⟩] 1).2 =
      (search encConst (⟨some [[0]], [⟨"a"⟩]⟩ : VStore) "q" [⟨"a"⟩] 1).2 :=
  c9_save_load_roundtrip encConst initStore ⟨some [[0]], [⟨"a"⟩]⟩ [⟨"a"⟩] fsEmpty
    "idx.bin" "chunks.pkl" "q" 1 (by decide) (by decide)

/-! ## C1, C3: FAISS search result lemmas -/

theorem sqDist_nonneg (q v : Vec) : 0 ≤ sqDist q v := by
  unfold sqDist
  apply List.sum_nonneg
  intro x hx
  rcases List.mem_map.mp hx with ⟨p, _, rfl⟩
  positivity

theorem length_distPairs (q : Vec) (xs : List Vec) :
    (distPairs q xs).length = xs.length := by
  simp [distPairs, List.enum_length]

theorem get?_distPairs (q : Vec) (xs : List Vec) (n : ℕ) :
    (distPairs q xs).get? n = (xs.get? n).map (fun v => (sqDist q v, (n : ℤ))) := by
  simp only [distPairs, List.get?_map, List.get?_enum, Option.map_map]
  cases xs.get? n <;> rfl

theorem mem_distPairs {q : Vec} {xs : List Vec} {p : ℚ × ℤ}
    (h : p ∈ distPairs q xs) :
    0 ≤ p.2 ∧ p.2 < (xs.length : ℤ) ∧ 0 ≤ p.1 := by
  rcases List.mem_iff_get?.mp h with ⟨n, hn⟩
  rw [get?_distPairs] at hn
  rcases hx : xs.get? n with _ | v
  · rw [hx] at hn; simp at hn
  · rw [hx] at hn
    obtain ⟨hlt, _⟩ := List.get?_eq_some.mp hx
    simp only [Option.map_some'] at hn
    obtain rfl := Option.some.inj hn
    refine ⟨Int.natCast_nonneg n, ?_, sqDist_nonneg q v⟩
    show (n : ℤ) < (xs.length : ℤ)
    exact_mod_cast hlt

theorem pyGetElem_of_nonneg {α : Type} (l : List α) {i : ℤ} (h : 0 ≤ i) :
    pyGetElem l i = l.get? i.toNat := by
  unfold pyGetElem
  dsimp only
  rw [if_neg (by omega : ¬ i < 0), if_neg (by omega : ¬ i < 0)]

theorem pyGetElem_neg_one {α : Type} (l : List α) (h : l ≠ []) :
    pyGetElem l (-1) = some (l.getLast h) := by
  have hlen : 1 ≤ l.length := List.length_pos.mpr h
  unfold pyGetElem
  dsimp only
  rw [if_pos (by omega : (-1 : ℤ) < 0)]
  rw [if_neg (by omega : ¬ (-1 : ℤ) + (l.length : ℤ) < 0)]
  have ht : ((-1 : ℤ) + (l.length : ℤ)).toNat = l.length - 1 := by omega
  rw [ht, List.get?_eq_get (show l.length - 1 < l.length by omega),
    List.getLast_eq_get]

theorem map_getD_distPairs (cs : List Chunk) (q : Vec) (xs : List Vec) (d : Chunk)
    (hlen : xs.length = cs.length) :
    (distPairs q xs).map (fun p => (pyGetElem cs p.2).getD d) = cs := by
  apply List.ext_get?
  intro n
  rw [List.get?_map, get?_distPairs]
  rcases hx : xs.get? n with _ | v
  · have hge : cs.length ≤ n := by
      have := List.get?_eq_none.mp hx
      omega
    rw [List.get?_eq_none.mpr hge]
    rfl
  · obtain ⟨hlt, _⟩ := List.get?_eq_some.mp hx
    have hlt' : n < cs.length := by omega
    rcases hc : cs.get? n with _ | c
    · exact absurd (List.get?_eq_none.mp hc) (by omega)
    · simp only [Option.map_some']
      rw [pyGetElem_of_nonneg cs (by omega : (0:ℤ) ≤ (n:ℤ))]
      simp only [Int.toNat_natCast]
      rw [hc]
      rfl

theorem map_fst_fn_distPairs (q : Vec) (xs : List Vec) (g : ℚ → ℚ) :
    (distPairs q xs).map (fun p => g p.1) = xs.map (fun v => g (sqDist q v)) := by
  unfold distPairs
  rw [List.map_map]
  have hcomp : ((fun p : ℚ × ℤ => g p.1) ∘ fun iv : ℕ × Vec => (sqDist q iv.2, (iv.1 : ℤ)))
      = (fun v => g (sqDist q v)) ∘ Prod.snd := rfl
  rw [hcomp, ← List.map_map, List.enum_map_snd]

/-- If the rebuild test is not triggered (index present, same chunks),
`search` reduces to its core. -/
theorem search_no_rebuild (enc : Encoder) (s : VStore) (q : String) (k : ℕ)
    {vecs : List Vec} (hidx : s.index = some vecs) :
    search enc s q s.chunks k = searchCore enc s q k := by
  unfold search
  rw [if_neg]
  intro h
  rcases h with h | h
  · rw [hidx] at h; simp at h
  · exact h rfl

/-- If the rebuild test is not triggered, `get_similarity_scores`
reduces to its core. -/
theorem scores_no_rebuild (enc : Encoder) (s : VStore) (q : String)
    {vecs : List Vec} (hidx : s.index = some vecs) :
    get_similarity_scores enc s q s.chunks = scoresCore enc s q := by
  unfold get_similarity_scores
  rw [if_neg]
  intro h
  rcases h with h | h
  · rw [hidx] at h; simp at h
  · exact h rfl

/-- C1 (amended): on a store whose index holds one vector per chunk,
`search(query, chunks, k)` with `k` at least the indexed count `n ≥ 1`
raises no exception and returns exactly `k` results: the `n` indexed
chunks, each once, followed by `k - n` repetitions of the **last**
indexed chunk — FAISS pads the missing result slots with label `-1`,
and Python's negative indexing resolves `-1` to the last element of the
chunk list. -/
theorem c1_search_overfetch_amended (enc : Encoder) (s : VStore) (q : String)
    (k : ℕ) (vecs : List Vec) (qv : Vec)
    (hidx : s.index = some vecs) (hlen : vecs.length = s.chunks.length)
    (hne : s.chunks ≠ []) (hq : enc q = some qv) (hk : s.chunks.length ≤ k) :
    (search enc s q s.chunks k).2.length = k ∧
    ((search enc s q s.chunks k).2.take s.chunks.length).Perm s.chunks ∧
    (search enc s q s.chunks k).2.drop s.chunks.length =
      List.replicate (k - s.chunks.length) (s.chunks.getLast hne) := by
  have hn : 1 ≤ s.chunks.length := List.length_pos.mpr hne
  have hsorted_len : ((distPairs qv vecs).insertionSort distLt).length = s.chunks.length := by
    rw [List.length_insertionSort, length_distPairs, hlen]
  have hfs : faissSearch vecs qv k =
      (distPairs qv vecs).insertionSort distLt ++
        List.replicate (k - s.chunks.length) (fltMax, -1) := by
    unfold faissSearch
    rw [List.take_of_length_le (by omega), hlen]
  have hperm : ((distPairs qv vecs).insertionSort distLt).Perm (distPairs qv vecs) :=
    List.perm_insertionSort distLt (distPairs qv vecs)
  have hmap : omap (fun p => pyGetElem s.chunks p.2) (faissSearch vecs qv k) =
      some ((((distPairs qv vecs).insertionSort distLt) ++
        List.replicate (k - s.chunks.length) (fltMax, -1)).map
          (fun p : ℚ × ℤ => (pyGetElem s.chunks p.2).getD (s.chunks.getLast hne))) := by
    rw [hfs]
    apply omap_eq_map
    intro p hp
    rcases List.mem_append.mp hp with hp | hp
    · obtain ⟨h0, hlt, _⟩ := mem_distPairs (hperm.subset hp)
      have hx : p.2.toNat < s.chunks.length := by omega
      rcases hcg : s.chunks.get? p.2.toNat with _ | c
      · exact absurd (List.get?_eq_none.mp hcg) (by omega)
      · rw [pyGetElem_of_nonneg s.chunks h0, hcg]
        rfl
    · obtain rfl := List.eq_of_mem_replicate hp
      rw [pyGetElem_neg_one s.chunks hne]
      rfl
  have hcore : (searchCore enc s q k).2 =
      (((distPairs qv vecs).insertionSort distLt) ++
        List.replicate (k - s.chunks.length) (fltMax, -1)).map
          (fun p : ℚ × ℤ => (pyGetElem s.chunks p.2).getD (s.chunks.getLast hne)) := by
    unfold searchCore
    rw [hidx]
    dsimp only
    rw [hq]
    dsimp only
    rw [hmap]
  rw [search_no_rebuild enc s q k hidx, hcore, List.map_append]
  have hmaplen : (((distPairs qv vecs).insertionSort distLt).map
      (fun p : ℚ × ℤ => (pyGetElem s.chunks p.2).getD (s.chunks.getLast hne))).length =
        s.chunks.length := by
    rw [List.length_map, hsorted_len]
  refine ⟨?_, ?_, ?_⟩
  · rw [List.length_append, hmaplen, List.length_map, List.length_replicate]
    omega
  · rw [List.take_left' hmaplen]
    exact ((hperm.map _).trans
      (by rw [map_getD_distPairs s.chunks qv vecs _ hlen])).symm.symm
  · rw [List.drop_left' hmaplen, List.map_replicate]
    rw [pyGetElem_neg_one s.chunks hne]
    rfl

/-- C1 witness: the amended over-fetch behaviour at a concrete store
(one indexed chunk, `k = 2`). -/
theorem c1_witness :
    (search encConst stW "q" stW.chunks 2).2.length = 2 ∧
    ((search encConst stW "q" stW.chunks 2).2.take stW.chunks.length).Perm stW.chunks ∧
    (search encConst stW "q" stW.chunks 2).2.drop stW.chunks.length =
      List.replicate (2 - stW.chunks.length) (stW.chunks.getLast (by decide)) :=
  c1_search_overfetch_amended encConst stW "q" 2 [[0]] [0] rfl (by decide) (by decide)
    rfl (by decide)

/-- C1 counterexample: on a store with exactly one indexed chunk,
`search` with `k = 2` returns two results (the chunk twice — the padding
label `-1` resolves to the last chunk), not the indexed count of one. -/
theorem c1_counterexample :
    (search encConst stW "q" stW.chunks 2).2 = [⟨"a"⟩, ⟨"a"⟩] ∧
    (search encConst stW "q" stW.chunks 2).2.length ≠ stW.chunks.length := by
  have h : (search encConst stW "q" stW.chunks 2).2 = [⟨"a"⟩, ⟨"a"⟩] := by
    simp only [search, stW, searchCore, encConst, faissSearch, distPairs, sqDist,
      List.insertionSort, List.orderedInsert, List.enum, List.enumFrom, omap, pyGetElem]
    simp +decide
  refine ⟨h, ?_⟩
  rw [h]
  decide

/-- C3 (amended): on a store whose index holds one vector per chunk, a
successful `get_similarity_scores` returns exactly one score per indexed
chunk with the score multiset `{1/(1+d)}` over the chunk distances `d`,
but ordered by ascending distance (scores non-increasing), not by chunk
index position — the code discards the FAISS labels. -/
theorem c3_scores_amended (enc : Encoder) (s : VStore) (q : String)
    (vecs : List Vec) (qv : Vec)
    (hidx : s.index = some vecs) (hlen : vecs.length = s.chunks.length)
    (hne : s.chunks ≠ []) (hq : enc q = some qv) :
    (get_similarity_scores enc s q s.chunks).2.length = s.chunks.length ∧
    (get_similarity_scores enc s q s.chunks).2.Perm (scoresInIndexOrderSpec qv vecs) ∧
    (get_similarity_scores enc s q s.chunks).2.Sorted (fun a b => b ≤ a) := by
  have hn : 1 ≤ s.chunks.length := List.length_pos.mpr hne
  have hsorted_len : ((distPairs qv vecs).insertionSort distLt).length = s.chunks.length := by
    rw [List.length_insertionSort, length_distPairs, hlen]
  have hfs : faissSearch vecs qv s.chunks.length =
      (distPairs qv vecs).insertionSort distLt := by
    unfold faissSearch
    rw [List.take_of_length_le (by omega), hlen, Nat.sub_self, List.replicate_zero,
      List.append_nil]
  have hperm := List.perm_insertionSort distLt (distPairs qv vecs)
  have hcore : (scoresCore enc s q).2 =
      ((distPairs qv vecs).insertionSort distLt).map (fun p : ℚ × ℤ => 1 / (1 + p.1)) := by
    unfold scoresCore
    rw [hidx]
    dsimp only
    rw [hq]
    dsimp only
    rw [hfs]
    have hni : ¬ ((distPairs qv vecs).insertionSort distLt).isEmpty = true := by
      rw [List.isEmpty_iff]
      intro hempty
      rw [hempty] at hsorted_len
      simp at hsorted_len
      omega
    rw [if_neg hni]
  rw [scores_no_rebuild enc s q hidx, hcore]
  have hm : (distPairs qv vecs).map (fun p : ℚ × ℤ => 1 / (1 + p.1)) =
      scoresInIndexOrderSpec qv vecs := by
    simpa [scoresInIndexOrderSpec] using
      map_fst_fn_distPairs qv vecs (fun x => 1 / (1 + x))
  refine ⟨?_, ?_, ?_⟩
  · rw [List.length_map, hsorted_len]
  · exact (hperm.map _).trans (by rw [hm])
  · have hs := List.sorted_insertionSort distLt (distPairs qv vecs)
    have hnn : ∀ p ∈ (distPairs qv vecs).insertionSort distLt, 0 ≤ p.1 := by
      intro p hp
      exact (mem_distPairs (hperm.subset hp)).2.2
    have hpair : List.Pairwise (fun a b : ℚ × ℤ => 1 / (1 + b.1) ≤ 1 / (1 + a.1))
        ((distPairs qv vecs).insertionSort distLt) := by
      refine List.Pairwise.imp_of_mem ?_ hs
      intro a b ha hb hab
      have ha0 : 0 ≤ a.1 := hnn a ha
      have h1 : (0:ℚ) < 1 + a.1 := by linarith
      have hle : a.1 ≤ b.1 := by
        rcases hab with habl | ⟨habe, _⟩
        · exact le_of_lt habl
        · exact le_of_eq habe
      exact one_div_le_one_div_of_le h1 (by linarith)
    exact hpair.map _ (fun a b hab => hab)

/-- C3 witness: the amended score shape at a concrete store (two chunks,
distances 4 and 0). -/
theorem c3_witness :
    (get_similarity_scores encTwo stC "q" stC.chunks).2.length = stC.chunks.length ∧
    (get_similarity_scores encTwo stC "q" stC.chunks).2.Perm
      (scoresInIndexOrderSpec [0] [[2], [0]]) ∧
    (get_similarity_scores encTwo stC "q" stC.chunks).2.Sorted (fun a b => b ≤ a) :=
  c3_scores_amended encTwo stC "q" [[2], [0]] [0] rfl (by decide) (by decide) (by decide)

/-- C3 counterexample: with chunk 0 at squared distance 4 and chunk 1 at
distance 0, the code returns `[1, 1/5]` (distance order) while the
claim's index-position ordering demands `[1/5, 1]`. -/
theorem c3_counterexample :
    (get_similarity_scores encTwo stC "q" stC.chunks).2 = [1, 1/5] ∧
    scoresInIndexOrderSpec [0] [[2], [0]] = [1/5, 1] ∧
    (get_similarity_scores encTwo stC "q" stC.chunks).2 ≠
      scoresInIndexOrderSpec [0] [[2], [0]] := by
  have h1 : (get_similarity_scores encTwo stC "q" stC.chunks).2 = [1, 1/5] := by
    simp only [get_similarity_scores, stC, scoresCore, encTwo, faissSearch, distPairs,
      sqDist, List.insertionSort, List.orderedInsert, List.enum, List.enumFrom]
    simp +decide
    norm_num [distLt]
  have h2 : scoresInIndexOrderSpec [0] [[2], [0]] = [1/5, 1] := by
    norm_num [scoresInIndexOrderSpec, sqDist]
  refine ⟨h1, h2, ?_⟩
  rw [h1, h2]
  simp only [ne_eq, List.cons.injEq]
  norm_num

end DoclingRag
